import Mathlib

/-!
Verification development for the Fourier-inversion MGF pricing core of the
StochVolModels repository.  The repository holds two near-duplicate copies of
the same module:
  * `src/stochvolmodels/pricers/core/mgf_pricer.py`  (embedded in namespace `MgfPricer`)
  * `src/utils/mgf_pricer.py`                        (embedded in namespace `UtilsMgfPricer`)

Modelling conventions:
  * numpy float64 / complex128 arithmetic is modelled by exact real (`ℝ`) and
    complex (`ℂ`) arithmetic; floating-point rounding is out of scope.
  * numpy arrays become `List ℝ` / `List ℂ`.
  * Python exceptions (`IndexError` from out-of-range indexing, numpy broadcast
    `ValueError`, explicit `raise ValueError("not implemented")`) are modelled by
    `Except PyErr`; a raised exception aborts the whole call, exactly as the
    `Except` monad does.
  * `np.log` of a non-positive argument yields NaN (not an exception); every
    summand built from that NaN is NaN and `np.nansum` drops all of them,
    returning 0.0.  This NaN path is modelled by an `Option ℝ` log-strike whose
    `none` branch contributes the sum 0.  Log-MGF input grids are modelled
    NaN-free (the collaborating model is specified to return NaN-free values);
    NaN-valued *outputs* (e.g. an inverse-put priced at a non-positive strike)
    are outside the model's scope and no theorem below touches that corner.
  * numpy elementwise binary operations broadcast a length-1 operand against a
    length-n operand and fail on any other length mismatch; `broadcastZip`
    models this for the one place it matters (combining the log-MGF grid with
    an expression built from the contour).
  * kernel evaluation at poles of the payoff kernel (contour points 0 and ±1 in
    the non-stable branch) is not modelled: numpy produces non-finite values
    there, Lean's total division gives 0; no theorem below evaluates a kernel
    at such a point.
-/

open scoped Classical

noncomputable section

/-- Python-level failure kinds observable from the embedded functions:
`indexError` for out-of-range indexing (e.g. `p[1]` on a short grid),
`broadcastError` for a numpy elementwise shape mismatch, and `valueError`
for the explicit `raise ValueError("not implemented")` branches. -/
inductive PyErr where
  | indexError
  | broadcastError
  | valueError
deriving DecidableEq

/-- Sequential loop over a list in which every iteration may raise: the first
failure aborts the whole call with no partial results (Python `for` + `raise`). -/
def mapExcept {α β : Type} (f : α → Except PyErr β) : List α → Except PyErr (List β)
  | [] => Except.ok []
  | a :: l => do
      let b ← f a
      let r ← mapExcept f l
      Except.ok (b :: r)

/-- `np.nansum` on a list of genuine (NaN-free) real numbers is a plain sum.
The one NaN source the claims touch (NaN log-strike) is handled upstream by an
`Option` that bypasses the sum entirely, matching nansum-of-all-NaN = 0. -/
def nansum (l : List ℝ) : ℝ := l.sum

/-- numpy elementwise combination of two 1-d complex arrays: equal lengths zip,
a length-1 operand broadcasts against the other, anything else raises. -/
def broadcastZip (f : ℂ → ℂ → ℂ) (a b : List ℂ) : Except PyErr (List ℂ) :=
  if a.length = b.length then Except.ok (List.zipWith f a b)
  else if b.length = 1 then Except.ok (a.map (fun x => f x (b.headD 0)))
  else if a.length = 1 then Except.ok (b.map (fun y => f (a.headD 0) y))
  else Except.error PyErr.broadcastError

/-- `np.linspace a b num`: `num` evenly spaced samples from `a` to `b`,
endpoint included, step `(b - a)/(num - 1)`. -/
def linspace (a b : ℝ) (num : ℕ) : List ℝ :=
  (List.range num).map (fun k : ℕ => a + (b - a) * k / ((num : ℝ) - 1))

namespace MgfPricer

/-- `VariableType` tag set from `stochvolmodels/pricers/core/config.py`; its
three members `LOG_RETURN`, `Q_VAR`, `SIGMA` are exactly the ones dispatched on
in `get_transform_var_grid`. -/
inductive VariableType where
  | LOG_RETURN
  | Q_VAR
  | SIGMA
deriving DecidableEq

/-- `get_phi_grid` of the core copy: `p = linspace(0, 5.6/vol_scaler, 1000)`,
`real_p = -0.5 if is_spot_measure else 0.5`, returning `real_p + 1j*p`. -/
def get_phi_grid (is_spot_measure : Bool) (vol_scaler : ℝ) : List ℂ :=
  let p := linspace 0 (5.6 / vol_scaler) 1000
  let real_p : ℝ := if is_spot_measure then -0.5 else 0.5
  p.map (fun t => (⟨real_p, t⟩ : ℂ))

/-- `get_psi_grid` of the core copy: `-0.5 + 1j*linspace(0, 200, 4000)`. -/
def get_psi_grid : List ℂ :=
  (linspace 0 200 4000).map (fun t => (⟨-0.5, t⟩ : ℂ))

/-- `get_theta_grid` of the core copy: `-0.5 + 1j*linspace(0, 600, 4000)`. -/
def get_theta_grid : List ℂ :=
  (linspace 0 600 4000).map (fun t => (⟨-0.5, t⟩ : ℂ))

/-- `get_transform_var_grid` of the core copy: dispatch on the variable kind,
activate one contour, and materialize the other two as `zeros_like`
(or `ones_like` for the phi grid under Q_VAR with the inverse measure). -/
def get_transform_var_grid (variable_type : VariableType) (is_spot_measure : Bool)
    (vol_scaler : ℝ) : List ℂ × List ℂ × List ℂ :=
  match variable_type with
  | .LOG_RETURN =>
      let phi_grid := get_phi_grid is_spot_measure vol_scaler
      let psi_grid : List ℂ := List.replicate phi_grid.length 0
      let theta_grid : List ℂ := List.replicate phi_grid.length 0
      (phi_grid, psi_grid, theta_grid)
  | .Q_VAR =>
      let psi_grid := get_psi_grid
      let phi_grid : List ℂ :=
        if is_spot_measure then List.replicate psi_grid.length 0
        else List.replicate psi_grid.length 1
      let theta_grid : List ℂ := List.replicate phi_grid.length 0
      (phi_grid, psi_grid, theta_grid)
  | .SIGMA =>
      let theta_grid := get_theta_grid
      let phi_grid : List ℂ := List.replicate theta_grid.length 0
      let psi_grid : List ℂ := List.replicate theta_grid.length 0
      (phi_grid, psi_grid, theta_grid)

/-- `compute_integration_weights` of the core copy.  `p = imag(var_grid)`.
Simpson: an array of 2s, endpoints overwritten to 1, every odd index then
overwritten to 4, everything scaled by `(p[1]-p[0])/3`.  Trapezoidal:
`append(0.5*(p[1]-p[0]), p[1:]-p[:-1])`.  A grid with fewer than 2 points hits
an out-of-range index (`dp[0]` when empty, `p[1]` otherwise) and raises. -/
def compute_integration_weights (var_grid : List ℂ) (is_simpson : Bool) :
    Except PyErr (List ℝ) :=
  let p := var_grid.map Complex.im
  if p.length < 2 then Except.error PyErr.indexError
  else if is_simpson then
    let dp1 := ((List.replicate p.length (2 : ℝ)).set 0 1).set (p.length - 1) 1
    let dp2 := (List.range p.length).map (fun i => if i % 2 = 1 then (4 : ℝ) else dp1.getD i 0)
    Except.ok (dp2.map (fun w => (p.getD 1 0 - p.getD 0 0) / 3 * w))
  else
    Except.ok (0.5 * (p.getD 1 0 - p.getD 0 0) :: List.zipWith (fun x y => x - y) p.tail p)

/-- Payoff kernel selection of `slice_pricer_with_mgf_grid` (core copy, lines
115-120): if `all(abs(real(phi_grid)) < 0.5000000001)` use the cancellation-safe
form `(dp/pi)/(p*p+0.25)`, otherwise `-(dp/pi)/((phi+1)*phi)` under the spot
measure and `-(dp/pi)/((phi-1)*phi)` under the inverse measure. -/
def payoff_kernel (phi_grid : List ℂ) (dp : List ℝ) (is_spot_measure : Bool) : List ℂ :=
  if ∀ z ∈ phi_grid, |z.re| < 0.5000000001 then
    List.zipWith (fun w (z : ℂ) => (Complex.ofReal (w / Real.pi / (z.im * z.im + 0.25)))) dp phi_grid
  else if is_spot_measure then
    List.zipWith (fun w z => -(Complex.ofReal (w / Real.pi)) / ((z + 1) * z)) dp phi_grid
  else
    List.zipWith (fun w z => -(Complex.ofReal (w / Real.pi)) / ((z - 1) * z)) dp phi_grid

/-- `slice_pricer_with_mgf_grid` of the core copy.  Weights, payoff kernel,
then one pass over `zip(log_strikes, strikes, optiontypes)` accumulating
`nansum(real(p_payoff * exp(-x*phi + log_mgf)))` and dispatching on the measure
flag and option-type code; unknown codes raise `ValueError`.  Python's `zip`
truncates to the shorter list, and entries of the preallocated zero output
array beyond it stay 0.  `ttm` is accepted and unused, as in the source. -/
def slice_pricer_with_mgf_grid (log_mgf_grid phi_grid : List ℂ)
    (ttm forward : ℝ) (strikes : List ℝ) (optiontypes : List String)
    (discfactor : ℝ) (is_spot_measure is_simpson : Bool) : Except PyErr (List ℝ) := do
  let dp ← compute_integration_weights phi_grid is_simpson
  let p_payoff := payoff_kernel phi_grid dp is_spot_measure
  let pairs := strikes.zip optiontypes
  let prices ← mapExcept (fun sk => do
      let strike := sk.1
      let type_ := sk.2
      let ratio := forward / strike
      let xOpt : Option ℝ := if 0 < ratio then some (Real.log ratio) else none
      let x := xOpt.getD 0
      let args ← broadcastZip (fun u v => u + v)
        (phi_grid.map (fun z => Complex.ofReal (-x) * z)) log_mgf_grid
      let capped : ℝ :=
        match xOpt with
        | some _ => nansum (List.zipWith (fun c a => (c * Complex.exp a).re) p_payoff args)
        | none => 0
      if is_spot_measure then
        if type_ = "C" then Except.ok (discfactor * (forward - strike * capped))
        else if type_ = "P" then Except.ok (discfactor * (strike - strike * capped))
        else Except.error PyErr.valueError
      else if type_ = "IC" ∨ type_ = "C" then
        Except.ok (forward * discfactor * (1 - capped))
      else if type_ = "IP" ∨ type_ = "P" then
        Except.ok (forward * discfactor * (Real.exp (-x) - capped))
      else Except.error PyErr.valueError) pairs
  Except.ok (prices ++ List.replicate (strikes.length - pairs.length) 0)

/-- `slice_qvar_pricer_with_a_grid` of the core copy: kernel
`(dp/pi)/(psi*psi)`, contour sum of `real(p_payoff * exp((strike*ttm)*psi +
log_mgf))`, then `maximum(discfactor*sum/ttm, 1e-10)`; only the option-type
code `"C"` is accepted (under either measure flag — `is_spot_measure` is not
consulted in the dispatch).  The unused `log_strikes` array of the source has
no observable effect and is omitted. -/
def slice_qvar_pricer_with_a_grid (log_mgf_grid psi_grid : List ℂ)
    (ttm : ℝ) (strikes : List ℝ) (optiontypes : List String) (forward : ℝ)
    (discfactor : ℝ) (is_simpson is_spot_measure : Bool) : Except PyErr (List ℝ) := do
  let dp ← compute_integration_weights psi_grid is_simpson
  let p_payoff := List.zipWith (fun w z => Complex.ofReal (w / Real.pi) / (z * z)) dp psi_grid
  let pairs := strikes.zip optiontypes
  let prices ← mapExcept (fun sk => do
      let strike := sk.1
      let type_ := sk.2
      let args ← broadcastZip (fun u v => u + v)
        (psi_grid.map (fun z => Complex.ofReal (strike * ttm) * z)) log_mgf_grid
      let s0 := nansum (List.zipWith (fun c a => (c * Complex.exp a).re) p_payoff args)
      let option_price := max (discfactor * s0 / ttm) 1e-10
      if type_ = "C" then Except.ok option_price
      else Except.error PyErr.valueError) pairs
  Except.ok (prices ++ List.replicate (strikes.length - pairs.length) 0)

/-- `pdf_with_mgf_grid` of the core copy: `dp = weights/pi`, one density value
`nansum(real(dp * exp((x-shift)*grid + log_mgf)))` per spatial point, finally
scaled by `dx = space_grid[1] - space_grid[0]` — which raises when the spatial
grid has fewer than 2 points (only after the loop has run, as in the source). -/
def pdf_with_mgf_grid (log_mgf_grid transform_var_grid : List ℂ)
    (space_grid : List ℝ) (shift : ℝ) (is_simpson : Bool) : Except PyErr (List ℝ) := do
  let dpw ← compute_integration_weights transform_var_grid is_simpson
  let dp := dpw.map (fun w => w / Real.pi)
  let pdf0 ← mapExcept (fun x => do
      let args ← broadcastZip (fun u v => u + v)
        (transform_var_grid.map (fun z => Complex.ofReal (x - shift) * z)) log_mgf_grid
      Except.ok (nansum (List.zipWith (fun w a => (Complex.ofReal w * Complex.exp a).re) dp args)))
    space_grid
  if space_grid.length < 2 then Except.error PyErr.indexError
  else Except.ok (pdf0.map (fun v => (space_grid.getD 1 0 - space_grid.getD 0 0) * v))

end MgfPricer

namespace UtilsMgfPricer

/-- `compute_integration_weights` of the utils copy (`src/utils/mgf_pricer.py`,
lines 83-98); its body is character-for-character the body of the core copy,
with the contour parameter named `phi_grid`. -/
def compute_integration_weights (phi_grid : List ℂ) (is_simpson : Bool) :
    Except PyErr (List ℝ) :=
  let p := phi_grid.map Complex.im
  if p.length < 2 then Except.error PyErr.indexError
  else if is_simpson then
    let dp1 := ((List.replicate p.length (2 : ℝ)).set 0 1).set (p.length - 1) 1
    let dp2 := (List.range p.length).map (fun i => if i % 2 = 1 then (4 : ℝ) else dp1.getD i 0)
    Except.ok (dp2.map (fun w => (p.getD 1 0 - p.getD 0 0) / 3 * w))
  else
    Except.ok (0.5 * (p.getD 1 0 - p.getD 0 0) :: List.zipWith (fun x y => x - y) p.tail p)

/-- `slice_qvar_pricer_with_a_grid` of the utils copy: a scalar spacing
`dp = p[1]-p[0]` (raising on short grids), per-strike kernel
`1/(psi*psi) * exp((strike*ttm)*psi)`, explicit trapezoid
`(dp/pi)*(0.5*mgf[0] + nansum(mgf[1:]))`, division by `ttm`, and *no* floor;
`"C"` is accepted under the spot measure and `"IC"` under the inverse one.
The unused `I0` parameter and unused `log_strikes` array are omitted. -/
def slice_qvar_pricer_with_a_grid (log_mgf_grid psi_grid : List ℂ)
    (ttm : ℝ) (strikes : List ℝ) (optiontypes : List String) (forward : ℝ)
    (is_spot_measure : Bool) : Except PyErr (List ℝ) := do
  let p := psi_grid.map Complex.im
  if p.length < 2 then Except.error PyErr.indexError
  else
    let dp := p.getD 1 0 - p.getD 0 0
    let pairs := strikes.zip optiontypes
    let prices ← mapExcept (fun sk => do
        let strike := sk.1
        let type_ := sk.2
        let p_payoff := psi_grid.map
          (fun z => 1 / (z * z) * Complex.exp (Complex.ofReal (strike * ttm) * z))
        let prodE ← broadcastZip (fun u v => u * v) p_payoff (log_mgf_grid.map Complex.exp)
        let mgf := prodE.map Complex.re
        let option_price := dp / Real.pi * (0.5 * mgf.headD 0 + nansum mgf.tail)
        let option_price := option_price / ttm
        if is_spot_measure then
          if type_ = "C" then Except.ok option_price
          else Except.error PyErr.valueError
        else if type_ = "IC" then Except.ok option_price
        else Except.error PyErr.valueError) pairs
    Except.ok (prices ++ List.replicate (strikes.length - pairs.length) 0)

/-- `pdf_with_mgf_grid` of the utils copy (`src/utils/mgf_pricer.py`, lines
193-212); its body is character-for-character the body of the core copy. -/
def pdf_with_mgf_grid (log_mgf_grid transform_var_grid : List ℂ)
    (space_grid : List ℝ) (shift : ℝ) (is_simpson : Bool) : Except PyErr (List ℝ) := do
  let dpw ← compute_integration_weights transform_var_grid is_simpson
  let dp := dpw.map (fun w => w / Real.pi)
  let pdf0 ← mapExcept (fun x => do
      let args ← broadcastZip (fun u v => u + v)
        (transform_var_grid.map (fun z => Complex.ofReal (x - shift) * z)) log_mgf_grid
      Except.ok (nansum (List.zipWith (fun w a => (Complex.ofReal w * Complex.exp a).re) dp args)))
    space_grid
  if space_grid.length < 2 then Except.error PyErr.indexError
  else Except.ok (pdf0.map (fun v => (space_grid.getD 1 0 - space_grid.getD 0 0) * v))

end UtilsMgfPricer

/-! ### Helper lemmas shared by the claim theorems -/

@[simp] lemma exceptOk_bind {α β : Type} (a : α) (k : α → Except PyErr β) :
    (Except.ok a >>= k) = k a := rfl

@[simp] lemma exceptError_bind {α β : Type} (e : PyErr) (k : α → Except PyErr β) :
    ((Except.error e : Except PyErr α) >>= k) = Except.error e := rfl

lemma broadcastZip_ok (f : ℂ → ℂ → ℂ) (a b : List ℂ) (h : a.length = b.length) :
    broadcastZip f a b = Except.ok (List.zipWith f a b) := by
  simp [broadcastZip, h]

lemma mapExcept_ok_forall {α β : Type} {f : α → Except PyErr β} {l : List α}
    {r : List β} (p : β → Prop) (hf : ∀ a b, f a = Except.ok b → p b)
    (h : mapExcept f l = Except.ok r) : ∀ v ∈ r, p v := by
  induction l generalizing r with
  | nil =>
    simp only [mapExcept] at h
    cases h
    intro v hv
    cases hv
  | cons a t ih =>
    simp only [mapExcept] at h
    cases hfa : f a with
    | error e => rw [hfa] at h; cases h
    | ok b =>
      rw [hfa] at h
      cases hrest : mapExcept f t with
      | error e => rw [hrest] at h; cases h
      | ok rt =>
        rw [hrest] at h
        cases h
        intro v hv
        rcases List.mem_cons.mp hv with hv | hv
        · exact hv ▸ hf a b hfa
        · exact ih (r := rt) hrest v hv

namespace MgfPricer

/-- Per-strike contour sum `nansum(real(p_payoff * exp(-x*phi + log_mgf)))` of
`slice_pricer_with_mgf_grid`; when `forward/strike` is non-positive the
log-strike is NaN, every summand is NaN, and `nansum` returns 0. -/
def cappedPrice (log_mgf_grid phi_grid : List ℂ) (dp : List ℝ)
    (forward strike : ℝ) (is_spot_measure : Bool) : ℝ :=
  if 0 < forward / strike then
    nansum (List.zipWith (fun c a => (c * Complex.exp a).re)
      (payoff_kernel phi_grid dp is_spot_measure)
      (List.zipWith (fun u v => u + v)
        (phi_grid.map (fun z => Complex.ofReal (-(Real.log (forward / strike))) * z))
        log_mgf_grid))
  else 0

/-- Closed form of a one-strike slice of `slice_pricer_with_mgf_grid`: weights
succeed, the contour sum is `cappedPrice`, and the final price (or error) is
read off the measure/option-type dispatch of the source. -/
lemma slice_pricer_single (log_mgf_grid phi_grid : List ℂ) (dp : List ℝ)
    (ttm forward K discfactor : ℝ) (ty : String) (ms simpson : Bool)
    (hdp : compute_integration_weights phi_grid simpson = Except.ok dp)
    (hlen : log_mgf_grid.length = phi_grid.length) :
    slice_pricer_with_mgf_grid log_mgf_grid phi_grid ttm forward [K] [ty] discfactor ms simpson =
      (let capped := cappedPrice log_mgf_grid phi_grid dp forward K ms
       let x : ℝ := if 0 < forward / K then Real.log (forward / K) else 0
       if ms then
         if ty = "C" then Except.ok [discfactor * (forward - K * capped)]
         else if ty = "P" then Except.ok [discfactor * (K - K * capped)]
         else Except.error PyErr.valueError
       else if ty = "IC" ∨ ty = "C" then Except.ok [forward * discfactor * (1 - capped)]
       else if ty = "IP" ∨ ty = "P" then
         Except.ok [forward * discfactor * (Real.exp (-x) - capped)]
       else Except.error PyErr.valueError) := by
  unfold slice_pricer_with_mgf_grid
  rw [hdp]
  show (do
      let prices ← mapExcept _ ([K].zip [ty])
      Except.ok (prices ++ List.replicate ([K].length - ([K].zip [ty]).length) (0:ℝ))) = _
  by_cases hx : 0 < forward / K <;>
    cases ms <;>
    by_cases hC : ty = "C" <;>
    by_cases hP : ty = "P" <;>
    by_cases hIC : ty = "IC" <;>
    by_cases hIP : ty = "IP" <;>
      simp [List.zip_cons_cons, mapExcept, hx, cappedPrice, broadcastZip_ok, hlen,
        hC, hP, hIC, hIP]

/-- Closed form of a one-strike slice of the core copy's
`slice_qvar_pricer_with_a_grid`: kernel `(dp/pi)/(psi*psi)`, exponent
`(K*ttm)*psi + log_mgf`, division by `ttm` and floor at `1e-10`. -/
lemma slice_qvar_single (log_mgf_grid psi_grid : List ℂ) (dp : List ℝ)
    (ttm K forward discfactor : ℝ) (ty : String) (simpson ms : Bool)
    (hdp : compute_integration_weights psi_grid simpson = Except.ok dp)
    (hlen : log_mgf_grid.length = psi_grid.length) :
    slice_qvar_pricer_with_a_grid log_mgf_grid psi_grid ttm [K] [ty] forward discfactor
        simpson ms =
      (let s0 := nansum (List.zipWith (fun c a => (c * Complex.exp a).re)
          (List.zipWith (fun w z => Complex.ofReal (w / Real.pi) / (z * z)) dp psi_grid)
          (List.zipWith (fun u v => u + v)
            (psi_grid.map (fun z => Complex.ofReal (K * ttm) * z)) log_mgf_grid))
       if ty = "C" then Except.ok [max (discfactor * s0 / ttm) 1e-10]
       else Except.error PyErr.valueError) := by
  unfold slice_qvar_pricer_with_a_grid
  rw [hdp]
  by_cases hC : ty = "C" <;>
    simp [List.zip_cons_cons, mapExcept, broadcastZip_ok, hlen, hC]

end MgfPricer

namespace UtilsMgfPricer

/-- Closed form of a one-strike slice of the utils copy's
`slice_qvar_pricer_with_a_grid`: explicit trapezoid over
`real(1/(psi*psi) * exp((K*ttm)*psi) * exp(log_mgf))`, division by `ttm`,
no floor. -/
lemma utils_slice_qvar_single (log_mgf_grid psi_grid : List ℂ)
    (ttm K forward : ℝ) (ty : String) (ms : Bool)
    (h2 : ¬ (psi_grid.map Complex.im).length < 2)
    (hlen : log_mgf_grid.length = psi_grid.length) :
    slice_qvar_pricer_with_a_grid log_mgf_grid psi_grid ttm [K] [ty] forward ms =
      (let p := psi_grid.map Complex.im
       let mgf := (List.zipWith (fun u v => u * v)
          (psi_grid.map (fun z => 1 / (z * z) * Complex.exp (Complex.ofReal (K * ttm) * z)))
          (log_mgf_grid.map Complex.exp)).map Complex.re
       let v := (p.getD 1 0 - p.getD 0 0) / Real.pi * (0.5 * mgf.headD 0 + nansum mgf.tail) / ttm
       if ms then (if ty = "C" then Except.ok [v] else Except.error PyErr.valueError)
       else if ty = "IC" then Except.ok [v] else Except.error PyErr.valueError) := by
  unfold slice_qvar_pricer_with_a_grid
  rw [if_neg h2]
  cases ms <;> by_cases hC : ty = "C" <;> by_cases hIC : ty = "IC" <;>
    simp [List.zip_cons_cons, mapExcept, broadcastZip_ok, hlen, hC, hIC]

end UtilsMgfPricer

lemma except_bind_ok {α β : Type} {e : Except PyErr α} {k : α → Except PyErr β} {r : β}
    (h : (e >>= k) = Except.ok r) : ∃ a, e = Except.ok a ∧ k a = Except.ok r := by
  cases e with
  | error e => cases h
  | ok a => exact ⟨a, rfl, h⟩

lemma compute_integration_weights_ok (g : List ℂ) (simpson : Bool) (h2 : 2 ≤ g.length) :
    ∃ dp, MgfPricer.compute_integration_weights g simpson = Except.ok dp := by
  unfold MgfPricer.compute_integration_weights
  simp only [List.length_map]
  rw [if_neg (by omega : ¬ g.length < 2)]
  cases simpson
  · exact ⟨_, rfl⟩
  · exact ⟨_, rfl⟩

lemma sum_map_mul_left (s : ℝ) (l : List ℝ) :
    (l.map (fun w => s * w)).sum = s * l.sum := by
  induction l with
  | nil => simp
  | cons a t ih => simp [ih]; ring

lemma sum_map_range (n : ℕ) (f : ℕ → ℝ) :
    ((List.range n).map f).sum = ∑ i in Finset.range n, f i := by
  induction n with
  | zero => simp
  | succ m ih =>
    rw [List.range_succ, List.map_append, List.sum_append, Finset.sum_range_succ, ih]
    simp

/-- The Simpson branch of the core `compute_integration_weights`, with the
staged construction (2s everywhere, endpoints to 1, odd indices to 4, scale)
written as an index map: position `n-1` keeps the value the odd-index pass
gave it, because that pass ran after the endpoint pass. -/
lemma cw_simpson_explicit (g : List ℂ) (h2 : 2 ≤ g.length) :
    MgfPricer.compute_integration_weights g true = Except.ok
      (((List.range g.length).map (fun i =>
          if i % 2 = 1 then (4 : ℝ)
          else if i = g.length - 1 then 1 else if i = 0 then 1 else 2)).map
        (fun w => ((g.map Complex.im).getD 1 0 - (g.map Complex.im).getD 0 0) / 3 * w)) := by
  simp only [MgfPricer.compute_integration_weights, List.length_map]
  rw [if_neg (by omega : ¬ g.length < 2), if_pos trivial]
  congr 1
  congr 1
  apply List.map_congr_left
  intro i hi
  have hiln : i < g.length := List.mem_range.mp hi
  by_cases hodd : i % 2 = 1
  · simp [hodd]
  · simp only [hodd, if_false]
    have hlen1 : ((List.replicate g.length (2:ℝ)).set 0 1).length = g.length := by simp
    have hlen2 : (((List.replicate g.length (2:ℝ)).set 0 1).set (g.length - 1) 1).length
        = g.length := by simp
    rw [List.getD_eq_getElem _ _ (by rw [hlen2]; exact hiln)]
    by_cases hlast : i = g.length - 1
    · subst hlast
      rw [List.getElem_set_self]
      simp
    · rw [List.getElem_set_ne (fun hh => hlast hh.symm)]
      by_cases h0 : i = 0
      · subst h0
        rw [List.getElem_set_self]
        simp
      · rw [List.getElem_set_ne (fun hh => h0 hh.symm)]
        simp [hlast, h0]

/-- The trapezoidal branch of the core `compute_integration_weights`. -/
lemma cw_trap_explicit (g : List ℂ) (h2 : 2 ≤ g.length) :
    MgfPricer.compute_integration_weights g false = Except.ok
      (0.5 * ((g.map Complex.im).getD 1 0 - (g.map Complex.im).getD 0 0) ::
        List.zipWith (fun x y => x - y) (g.map Complex.im).tail (g.map Complex.im)) := by
  simp only [MgfPricer.compute_integration_weights, List.length_map]
  rw [if_neg (by omega : ¬ g.length < 2)]
  simp

lemma sum_alt42 (m : ℕ) :
    (∑ i in Finset.range m, (if (i + 1) % 2 = 1 then (4:ℝ) else 2)) =
      3 * m + (if m % 2 = 1 then 1 else 0) := by
  induction m with
  | zero => simp
  | succ k ih =>
    rw [Finset.sum_range_succ, ih]
    rcases Nat.mod_two_eq_zero_or_one k with hk | hk
    · have h1 : (k + 1) % 2 = 1 := by omega
      simp only [hk, h1]
      push_cast
      norm_num
      ring
    · have h1 : (k + 1) % 2 = 0 := by omega
      simp only [hk, h1]
      push_cast
      norm_num
      ring

lemma simpson_coeff_sum (n : ℕ) (h2 : 2 ≤ n) :
    (∑ i in Finset.range n, (if i % 2 = 1 then (4:ℝ)
        else if i = n - 1 then 1 else if i = 0 then 1 else 2)) =
      if n % 2 = 0 then 3 * (n : ℝ) - 1 else 3 * (n : ℝ) - 3 := by
  obtain ⟨m, rfl⟩ : ∃ m, n = m + 2 := ⟨n - 2, by omega⟩
  rw [Finset.sum_range_succ', Finset.sum_range_succ]
  have hmid : (∑ i in Finset.range m, (if (i + 1) % 2 = 1 then (4:ℝ)
      else if i + 1 = m + 2 - 1 then 1 else if i + 1 = 0 then 1 else 2)) =
      ∑ i in Finset.range m, (if (i + 1) % 2 = 1 then (4:ℝ) else 2) := by
    refine Finset.sum_congr rfl (fun i hi => ?_)
    have hi' : i < m := Finset.mem_range.mp hi
    by_cases hp : (i + 1) % 2 = 1
    · simp [hp]
    · simp only [hp, if_false]
      rw [if_neg (by omega : ¬ (i + 1 = m + 2 - 1)), if_neg (by omega : ¬ (i + 1 = 0))]
  rw [hmid, sum_alt42]
  rcases Nat.mod_two_eq_zero_or_one m with hk | hk
  · have h1 : (m + 1) % 2 = 1 := by omega
    have h2' : (m + 2) % 2 = 0 := by omega
    simp only [hk, h1, h2']
    norm_num
    push_cast
    ring
  · have h1 : (m + 1) % 2 = 0 := by omega
    have h2' : (m + 2) % 2 = 1 := by omega
    simp only [hk, h1, h2']
    norm_num
    push_cast
    ring

lemma mapExcept_ok_of_ok {α β : Type} (f : α → Except PyErr β) (g0 : α → β)
    (hf : ∀ a, f a = Except.ok (g0 a)) (l : List α) :
    mapExcept f l = Except.ok (l.map g0) := by
  induction l with
  | nil => simp [mapExcept]
  | cons a t ih => simp [mapExcept, hf, ih]

lemma map_mk_im (rp : ℝ) (l : List ℝ) :
    (l.map (fun t => (⟨rp, t⟩ : ℂ))).map Complex.im = l := by
  induction l <;> simp [*]

lemma map_mk_re (rp : ℝ) (l : List ℝ) :
    (l.map (fun t => (⟨rp, t⟩ : ℂ))).map Complex.re = List.replicate l.length rp := by
  induction l with
  | nil => simp
  | cons a t ih => simp [ih, List.replicate_succ]

lemma linspace_length (a b : ℝ) (num : ℕ) : (linspace a b num).length = num := by
  simp [linspace]

lemma get_phi_grid_eq (spot : Bool) (scaler : ℝ) :
    MgfPricer.get_phi_grid spot scaler =
      (linspace 0 (5.6 / scaler) 1000).map
        (fun t => (⟨if spot then (-0.5 : ℝ) else 0.5, t⟩ : ℂ)) := by
  cases spot <;> rfl

/-! ### Claim theorems -/

/-- Claim C1: put-call parity.  For every strictly positive strike, log-MGF
grid aligned with the contour, forward and discount factor, the spot-measure
call and put prices of `slice_pricer_with_mgf_grid` for the same strike satisfy
`call - put = discfactor * (forward - strike)`; in the exact real arithmetic of
this model the contour sum cancels identically, so the identity is exact. -/
theorem put_call_parity_spot (log_mgf_grid phi_grid : List ℂ)
    (ttm forward K discfactor : ℝ) (simpson : Bool)
    (h2 : 2 ≤ phi_grid.length) (hlen : log_mgf_grid.length = phi_grid.length)
    (hK : 0 < K) :
    ∃ c p, MgfPricer.slice_pricer_with_mgf_grid log_mgf_grid phi_grid ttm forward
        [K] ["C"] discfactor true simpson = Except.ok [c] ∧
      MgfPricer.slice_pricer_with_mgf_grid log_mgf_grid phi_grid ttm forward
        [K] ["P"] discfactor true simpson = Except.ok [p] ∧
      c - p = discfactor * (forward - K) := by
  obtain ⟨dp, hdp⟩ := compute_integration_weights_ok phi_grid simpson h2
  have hC := MgfPricer.slice_pricer_single log_mgf_grid phi_grid dp ttm forward K
    discfactor "C" true simpson hdp hlen
  have hP := MgfPricer.slice_pricer_single log_mgf_grid phi_grid dp ttm forward K
    discfactor "P" true simpson hdp hlen
  simp only [if_true, if_pos rfl] at hC hP
  norm_num at hC hP
  exact ⟨_, _, hC, hP, by ring⟩

/-- Witness for C1 at a concrete two-point contour with zero log-MGF grid. -/
theorem put_call_parity_spot_witness :
    ∃ c p, MgfPricer.slice_pricer_with_mgf_grid [0, 0] [⟨-0.5, 0⟩, ⟨-0.5, 1⟩] 1 1
        [1] ["C"] 1 true false = Except.ok [c] ∧
      MgfPricer.slice_pricer_with_mgf_grid [0, 0] [⟨-0.5, 0⟩, ⟨-0.5, 1⟩] 1 1
        [1] ["P"] 1 true false = Except.ok [p] ∧
      c - p = 1 * (1 - 1) :=
  put_call_parity_spot [0, 0] [⟨-0.5, 0⟩, ⟨-0.5, 1⟩] 1 1 1 1 false
    (by norm_num) rfl (by norm_num)

/-- Counterexample to claim C3 as stated: under the inverse measure the core
copy accepts the option-type code "C" as well (its dispatch reads
`type_ in ['IC','C']`), so a "C" slice under the inverse measure returns an
ordinary price instead of failing with `UnsupportedOptionType`. -/
theorem option_type_validation_cx :
    MgfPricer.slice_pricer_with_mgf_grid [0, 0] [⟨0.5, 0⟩, ⟨0.5, 1⟩] 1 1
        [1] ["C"] 1 false false = Except.ok [1 - 2.8 / Real.pi] := by
  have hdp : MgfPricer.compute_integration_weights [⟨0.5, 0⟩, ⟨0.5, 1⟩] false =
      Except.ok [0.5, 1] := by
    norm_num [MgfPricer.compute_integration_weights]
  have hker : MgfPricer.payoff_kernel [⟨1/2, 0⟩, ⟨1/2, 1⟩] [1/2, 1] false =
      [Complex.ofReal (1/2 / Real.pi / (1/4)), Complex.ofReal (1 / Real.pi / (5/4))] := by
    unfold MgfPricer.payoff_kernel
    rw [if_pos]
    · norm_num
    · intro z hz
      rcases List.mem_cons.mp hz with rfl | hz
      · norm_num [abs_of_nonneg]
      · rcases List.mem_cons.mp hz with rfl | hz
        · norm_num [abs_of_nonneg]
        · simp at hz
  have h := MgfPricer.slice_pricer_single [0, 0] [⟨0.5, 0⟩, ⟨0.5, 1⟩] [0.5, 1]
    1 1 1 1 "C" false false hdp rfl
  rw [h]
  norm_num [MgfPricer.cappedPrice, nansum]
  rw [hker]
  simp only [List.zipWith, Complex.exp_zero, Complex.one_re, Complex.one_im,
    Complex.ofReal_re, Complex.ofReal_im, List.sum_cons, List.sum_nil,
    mul_one, mul_zero, sub_zero, add_zero]
  field_simp
  ring

/-- Claim C3 (amended): in the core copy, a one-strike spot slice succeeds
exactly for codes "C" and "P"; an inverse-measure slice succeeds for any of
"C", "P", "IC", "IP" (the dispatch maps "C" with "IC" to the inverse-call
formula and "P" with "IP" to the inverse-put formula); the quadratic-variation
pricer accepts exactly "C" under either measure flag ("IC" always raises).
Every rejected code fails with the `ValueError` that the spec calls
`UnsupportedOptionType`, and no price is returned. -/
theorem option_type_validation (log_mgf_grid phi_grid : List ℂ)
    (ttm forward K discfactor : ℝ) (ty : String) (simpson ms : Bool)
    (h2 : 2 ≤ phi_grid.length) (hlen : log_mgf_grid.length = phi_grid.length) :
    ((∃ v, MgfPricer.slice_pricer_with_mgf_grid log_mgf_grid phi_grid ttm forward
        [K] [ty] discfactor true simpson = Except.ok v) ↔ ty = "C" ∨ ty = "P")
  ∧ ((∃ v, MgfPricer.slice_pricer_with_mgf_grid log_mgf_grid phi_grid ttm forward
        [K] [ty] discfactor false simpson = Except.ok v) ↔
      ty = "C" ∨ ty = "P" ∨ ty = "IC" ∨ ty = "IP")
  ∧ ((∃ v, MgfPricer.slice_qvar_pricer_with_a_grid log_mgf_grid phi_grid ttm
        [K] [ty] forward discfactor simpson ms = Except.ok v) ↔ ty = "C")
  ∧ (¬ (ty = "C" ∨ ty = "P") →
      MgfPricer.slice_pricer_with_mgf_grid log_mgf_grid phi_grid ttm forward
        [K] [ty] discfactor true simpson = Except.error PyErr.valueError)
  ∧ (¬ (ty = "C" ∨ ty = "P" ∨ ty = "IC" ∨ ty = "IP") →
      MgfPricer.slice_pricer_with_mgf_grid log_mgf_grid phi_grid ttm forward
        [K] [ty] discfactor false simpson = Except.error PyErr.valueError)
  ∧ (ty ≠ "C" →
      MgfPricer.slice_qvar_pricer_with_a_grid log_mgf_grid phi_grid ttm
        [K] [ty] forward discfactor simpson ms = Except.error PyErr.valueError) := by
  obtain ⟨dp, hdp⟩ := compute_integration_weights_ok phi_grid simpson h2
  have hspot := MgfPricer.slice_pricer_single log_mgf_grid phi_grid dp ttm forward K
    discfactor ty true simpson hdp hlen
  have hinv := MgfPricer.slice_pricer_single log_mgf_grid phi_grid dp ttm forward K
    discfactor ty false simpson hdp hlen
  have hqv := MgfPricer.slice_qvar_single log_mgf_grid phi_grid dp ttm K forward
    discfactor ty simpson ms hdp hlen
  refine ⟨?_, ?_, ?_, ?_, ?_, ?_⟩ <;>
    simp only [hspot, hinv, hqv] <;>
    by_cases hC : ty = "C" <;> by_cases hP : ty = "P" <;>
    by_cases hIC : ty = "IC" <;> by_cases hIP : ty = "IP" <;>
    simp [hC, hP, hIC, hIP]

/-- Witness for the amended C3 at a concrete contour: the code "P" is accepted
by a spot-measure slice. -/
theorem option_type_validation_witness :
    ∃ v, MgfPricer.slice_pricer_with_mgf_grid [0, 0] [⟨0.5, 0⟩, ⟨0.5, 1⟩] 1 1
        [1] ["P"] 1 true false = Except.ok v :=
  ((option_type_validation [0, 0] [⟨0.5, 0⟩, ⟨0.5, 1⟩] 1 1 1 1 "P" false true
    (by norm_num) rfl).1).mpr (Or.inr rfl)

/-- Counterexample to claim C8 as stated: a negative strike raises nothing.
`np.log` of the negative ratio is NaN, every summand of the contour sum is NaN,
`np.nansum` drops them all, and the spot call is priced as
`discfactor*(forward - strike*0)` — an ordinary returned price. -/
theorem invalid_strike_cx :
    MgfPricer.slice_pricer_with_mgf_grid [0, 0] [⟨0.5, 0⟩, ⟨0.5, 1⟩] 1 1
        [-1] ["C"] 1 true false = Except.ok [1] := by
  have hdp : MgfPricer.compute_integration_weights [⟨0.5, 0⟩, ⟨0.5, 1⟩] false =
      Except.ok [0.5, 1] := by
    norm_num [MgfPricer.compute_integration_weights]
  have h := MgfPricer.slice_pricer_single [0, 0] [⟨0.5, 0⟩, ⟨0.5, 1⟩] [0.5, 1]
    1 1 (-1) 1 "C" true false hdp rfl
  rw [h]
  norm_num [MgfPricer.cappedPrice]

/-- Claim C8 (amended): the slice pricer performs no strike validation and has
no `InvalidStrike` error path.  For a non-positive strike under the spot
measure the NaN log-strike makes the NaN-skipping contour sum 0, so the call
is priced `discfactor*forward` and the put `discfactor*strike`, both returned
as ordinary prices. -/
theorem invalid_strike_no_error (log_mgf_grid phi_grid : List ℂ)
    (ttm forward K discfactor : ℝ) (simpson : Bool)
    (h2 : 2 ≤ phi_grid.length) (hlen : log_mgf_grid.length = phi_grid.length)
    (hf : 0 < forward) (hK : K ≤ 0) :
    MgfPricer.slice_pricer_with_mgf_grid log_mgf_grid phi_grid ttm forward
        [K] ["C"] discfactor true simpson = Except.ok [discfactor * forward] ∧
    MgfPricer.slice_pricer_with_mgf_grid log_mgf_grid phi_grid ttm forward
        [K] ["P"] discfactor true simpson = Except.ok [discfactor * K] := by
  obtain ⟨dp, hdp⟩ := compute_integration_weights_ok phi_grid simpson h2
  have hx : ¬ 0 < forward / K := by
    have : forward / K ≤ 0 := div_nonpos_of_nonneg_of_nonpos hf.le hK
    linarith
  have hC := MgfPricer.slice_pricer_single log_mgf_grid phi_grid dp ttm forward K
    discfactor "C" true simpson hdp hlen
  have hP := MgfPricer.slice_pricer_single log_mgf_grid phi_grid dp ttm forward K
    discfactor "P" true simpson hdp hlen
  simp only [MgfPricer.cappedPrice, hx, if_false] at hC hP
  norm_num at hC hP
  exact ⟨hC, hP⟩

/-- Counterexample to claim C2 as stated: the stable closed-form kernel is
selected by the weaker test `all(abs(real(phi_grid)) < 0.5000000001)`, not by
closeness to ±0.5.  On the contour `[i, 2i]` (real part 0, far from ±0.5) the
pricer prices with the stable kernel, whose value differs from the
spot-measure kernel sum the claim prescribes for that contour. -/
theorem kernel_branch_cx :
    MgfPricer.slice_pricer_with_mgf_grid [0, 0] [⟨0, 1⟩, ⟨0, 2⟩] 1 1 [1] ["C"] 1 true false =
      Except.ok [1 - 54 / (85 * Real.pi)]
  ∧ nansum (List.zipWith (fun c a => (c * Complex.exp a).re)
      (List.zipWith (fun w z => -(Complex.ofReal (w / Real.pi)) / ((z + 1) * z)) [0.5, 1]
        [⟨0, 1⟩, ⟨0, 2⟩])
      [0, 0]) = 9 / (20 * Real.pi)
  ∧ 1 - 54 / (85 * Real.pi) ≠ 1 - 9 / (20 * Real.pi)
  ∧ ¬ (∀ z ∈ [(⟨0, 1⟩ : ℂ), ⟨0, 2⟩], |z.re - 0.5| ≤ 1e-10 ∨ |z.re + 0.5| ≤ 1e-10) := by
  refine ⟨?_, ?_, ?_, ?_⟩
  · have hdp : MgfPricer.compute_integration_weights [⟨0, 1⟩, ⟨0, 2⟩] false =
        Except.ok [0.5, 1] := by
      norm_num [MgfPricer.compute_integration_weights]
    have hker : MgfPricer.payoff_kernel [⟨0, 1⟩, ⟨0, 2⟩] [1/2, 1] true =
        [Complex.ofReal (1/2 / Real.pi / (5/4)), Complex.ofReal (1 / Real.pi / (17/4))] := by
      unfold MgfPricer.payoff_kernel
      rw [if_pos]
      · norm_num
      · intro z hz
        rcases List.mem_cons.mp hz with rfl | hz
        · norm_num
        · rcases List.mem_cons.mp hz with rfl | hz
          · norm_num
          · simp at hz
    have h := MgfPricer.slice_pricer_single [0, 0] [⟨0, 1⟩, ⟨0, 2⟩] [0.5, 1]
      1 1 1 1 "C" true false hdp rfl
    rw [h]
    norm_num [MgfPricer.cappedPrice, nansum]
    rw [hker]
    simp only [List.zipWith, Complex.exp_zero, Complex.one_re, Complex.one_im,
      Complex.ofReal_re, Complex.ofReal_im, List.sum_cons, List.sum_nil,
      mul_one, mul_zero, sub_zero, add_zero]
    field_simp
    ring
  · simp only [List.zipWith, Complex.exp_zero, mul_one, nansum, List.sum_cons, List.sum_nil]
    simp [Complex.div_re, Complex.normSq_apply, Complex.mul_re, Complex.mul_im,
      Complex.add_re, Complex.add_im, Complex.ofReal_re, Complex.ofReal_im]
    norm_num
    field_simp
    ring
  · intro hcontra
    have hpi := Real.pi_ne_zero
    have h54 : 54 / (85 * Real.pi) = 9 / (20 * Real.pi) := by linarith
    field_simp at h54
    nlinarith [Real.pi_pos, h54]
  · intro hall
    have h1 := hall ⟨0, 1⟩ (by simp)
    norm_num [abs_le] at h1
/-- Claim C2 (amended): the numerically stable closed-form kernel
`weights/(pi*(p^2+0.25))` is used if and only if every contour point satisfies
`|Re z| < 0.5000000001` (about `|Re z| <= 0.5 + 1e-10`): this holds in
particular for contours with real part exactly ±0.5, but also for any contour
with `|Re z|` below the threshold (e.g. real part 0, see the counterexample).
When some point violates the threshold, the kernel `-weights/(pi*phi*(phi+1))`
is used under the spot measure and `-weights/(pi*phi*(phi-1))` under the
inverse measure, exactly as claimed. -/
theorem kernel_branch_selection (log_mgf_grid phi_grid : List ℂ) (dp : List ℝ)
    (ttm forward K discfactor : ℝ) (simpson : Bool)
    (hdp : MgfPricer.compute_integration_weights phi_grid simpson = Except.ok dp)
    (hlen : log_mgf_grid.length = phi_grid.length) (hK : 0 < forward / K) :
    ((∀ z ∈ phi_grid, z.re = 0.5 ∨ z.re = -0.5) → ∀ z ∈ phi_grid, |z.re| < 0.5000000001)
  ∧ ((∀ z ∈ phi_grid, |z.re| < 0.5000000001) →
      MgfPricer.slice_pricer_with_mgf_grid log_mgf_grid phi_grid ttm forward [K] ["C"]
          discfactor true simpson =
        Except.ok [discfactor * (forward - K * nansum (List.zipWith
          (fun c a => (c * Complex.exp a).re)
          (List.zipWith (fun w (z : ℂ) => (Complex.ofReal (w / Real.pi / (z.im * z.im + 0.25))))
            dp phi_grid)
          (List.zipWith (fun u v => u + v)
            (phi_grid.map (fun z => Complex.ofReal (-(Real.log (forward / K))) * z))
            log_mgf_grid)))])
  ∧ (¬ (∀ z ∈ phi_grid, |z.re| < 0.5000000001) →
      MgfPricer.slice_pricer_with_mgf_grid log_mgf_grid phi_grid ttm forward [K] ["C"]
          discfactor true simpson =
        Except.ok [discfactor * (forward - K * nansum (List.zipWith
          (fun c a => (c * Complex.exp a).re)
          (List.zipWith (fun w z => -(Complex.ofReal (w / Real.pi)) / ((z + 1) * z)) dp phi_grid)
          (List.zipWith (fun u v => u + v)
            (phi_grid.map (fun z => Complex.ofReal (-(Real.log (forward / K))) * z))
            log_mgf_grid)))])
  ∧ (¬ (∀ z ∈ phi_grid, |z.re| < 0.5000000001) →
      MgfPricer.slice_pricer_with_mgf_grid log_mgf_grid phi_grid ttm forward [K] ["C"]
          discfactor false simpson =
        Except.ok [forward * discfactor * (1 - nansum (List.zipWith
          (fun c a => (c * Complex.exp a).re)
          (List.zipWith (fun w z => -(Complex.ofReal (w / Real.pi)) / ((z - 1) * z)) dp phi_grid)
          (List.zipWith (fun u v => u + v)
            (phi_grid.map (fun z => Complex.ofReal (-(Real.log (forward / K))) * z))
            log_mgf_grid)))]) := by
  refine ⟨?_, ?_, ?_, ?_⟩
  · intro h z hz
    rcases h z hz with h1 | h1 <;> rw [h1]
    · rw [abs_of_nonneg (by norm_num)]; norm_num
    · rw [abs_of_nonpos (by norm_num)]; norm_num
  · intro hcond
    have hs := MgfPricer.slice_pricer_single log_mgf_grid phi_grid dp ttm forward K
      discfactor "C" true simpson hdp hlen
    rw [hs]
    simp only [MgfPricer.cappedPrice, if_pos hK, MgfPricer.payoff_kernel, if_pos hcond]
    norm_num
  · intro hcond
    have hs := MgfPricer.slice_pricer_single log_mgf_grid phi_grid dp ttm forward K
      discfactor "C" true simpson hdp hlen
    rw [hs]
    simp only [MgfPricer.cappedPrice, if_pos hK, MgfPricer.payoff_kernel, if_neg hcond]
    norm_num
  · intro hcond
    have hs := MgfPricer.slice_pricer_single log_mgf_grid phi_grid dp ttm forward K
      discfactor "C" false simpson hdp hlen
    rw [hs]
    simp only [MgfPricer.cappedPrice, if_pos hK, MgfPricer.payoff_kernel, if_neg hcond]
    norm_num

/-- Witness for the amended C2: on the contour with real part exactly `0.5`
the stable kernel is selected. -/
theorem kernel_branch_selection_witness :
    MgfPricer.slice_pricer_with_mgf_grid [0, 0] [⟨0.5, 0⟩, ⟨0.5, 1⟩] 1 1 [1] ["C"] 1
        true false =
      Except.ok [1 * (1 - 1 * nansum (List.zipWith (fun c a => (c * Complex.exp a).re)
        (List.zipWith (fun w (z : ℂ) => (Complex.ofReal (w / Real.pi / (z.im * z.im + 0.25))))
          [0.5, 1] [⟨0.5, 0⟩, ⟨0.5, 1⟩])
        (List.zipWith (fun u v => u + v)
          (List.map (fun z => Complex.ofReal (-(Real.log (1 / 1))) * z) [⟨0.5, 0⟩, ⟨0.5, 1⟩])
          [0, 0])))] :=
  (kernel_branch_selection [0, 0] [⟨0.5, 0⟩, ⟨0.5, 1⟩] [0.5, 1] 1 1 1 1 false
      (by norm_num [MgfPricer.compute_integration_weights]) rfl (by norm_num)).2.1
    (by
      intro z hz
      rcases List.mem_cons.mp hz with rfl | hz
      · norm_num [abs_of_nonneg]
      · rcases List.mem_cons.mp hz with rfl | hz
        · norm_num [abs_of_nonneg]
        · simp at hz)

/-- Counterexample to claim C4 as stated: the utils copy of
`slice_qvar_pricer_with_a_grid` divides by maturity but applies no floor, so it
can return a negative quadratic-variation price.  With the two-point contour
`psi = [-0.5, -0.5+i]` and the log-MGF grid `pi*i - psi` (so that the
exponentials collapse to `exp(pi*i) = -1`), the returned price is
`-38/(25*pi) < 0 < 1e-10`. -/
theorem qvar_floor_cx :
    UtilsMgfPricer.slice_qvar_pricer_with_a_grid
        [Complex.ofReal Real.pi * Complex.I - ⟨-(1/2), 0⟩,
         Complex.ofReal Real.pi * Complex.I - ⟨-(1/2), 1⟩]
        [⟨-(1/2), 0⟩, ⟨-(1/2), 1⟩] 1 [1] ["C"] 1 true =
      Except.ok [-(38 / (25 * Real.pi))]
  ∧ -(38 / (25 * Real.pi)) < 1e-10 := by
  constructor
  · have h := UtilsMgfPricer.utils_slice_qvar_single
      [Complex.ofReal Real.pi * Complex.I - ⟨-(1/2), 0⟩,
       Complex.ofReal Real.pi * Complex.I - ⟨-(1/2), 1⟩]
      [⟨-(1/2), 0⟩, ⟨-(1/2), 1⟩] 1 1 1 "C" true (by norm_num) rfl
    rw [h]
    have he0 : (1 / ((⟨-(1/2), 0⟩ : ℂ) * ⟨-(1/2), 0⟩) *
        Complex.exp (Complex.ofReal (1 * 1) * ⟨-(1/2), 0⟩) *
        Complex.exp (Complex.ofReal Real.pi * Complex.I - ⟨-(1/2), 0⟩)).re = -4 := by
      rw [mul_assoc, ← Complex.exp_add]
      rw [show Complex.ofReal (1 * 1) * (⟨-(1/2), 0⟩ : ℂ) +
          (Complex.ofReal Real.pi * Complex.I - ⟨-(1/2), 0⟩) =
          Complex.ofReal Real.pi * Complex.I from by push_cast; ring]
      rw [Complex.exp_pi_mul_I]
      simp [Complex.div_re, Complex.normSq_apply, Complex.mul_re, Complex.mul_im]
      norm_num
    have he1 : (1 / ((⟨-(1/2), 1⟩ : ℂ) * ⟨-(1/2), 1⟩) *
        Complex.exp (Complex.ofReal (1 * 1) * ⟨-(1/2), 1⟩) *
        Complex.exp (Complex.ofReal Real.pi * Complex.I - ⟨-(1/2), 1⟩)).re = 12 / 25 := by
      rw [mul_assoc, ← Complex.exp_add]
      rw [show Complex.ofReal (1 * 1) * (⟨-(1/2), 1⟩ : ℂ) +
          (Complex.ofReal Real.pi * Complex.I - ⟨-(1/2), 1⟩) =
          Complex.ofReal Real.pi * Complex.I from by push_cast; ring]
      rw [Complex.exp_pi_mul_I]
      simp [Complex.div_re, Complex.normSq_apply, Complex.mul_re, Complex.mul_im]
      norm_num
    simp only [List.map_cons, List.map_nil, List.zipWith, List.tail, nansum,
      List.sum_cons, List.sum_nil, List.headD, he0, he1]
    norm_num
    field_simp
    ring
  · have hpi := Real.pi_pos
    have : 0 < 38 / (25 * Real.pi) := by positivity
    norm_num
    linarith

/-- Claim C4 (amended to the core copy, whose structure the claim describes):
for every valid call-type one-strike slice the core
`slice_qvar_pricer_with_a_grid` returns exactly
`max(discfactor * S / ttm, 1e-10)` where `S` is the contour sum with payoff
kernel `weights/(pi*psi^2)` and exponential factor
`exp(strike*ttm*psi + log_mgf)`; consequently, for matched-length strike and
option-type arrays, every price the core copy returns is at least `1e-10`.
(The utils copy omits the floor; see the counterexample.) -/
theorem qvar_pricer_floor (log_mgf_grid psi_grid : List ℂ)
    (ttm K forward discfactor : ℝ) (simpson ms : Bool)
    (h2 : 2 ≤ psi_grid.length) (hlen : log_mgf_grid.length = psi_grid.length) :
    (∃ dp, MgfPricer.compute_integration_weights psi_grid simpson = Except.ok dp ∧
      MgfPricer.slice_qvar_pricer_with_a_grid log_mgf_grid psi_grid ttm [K] ["C"] forward
          discfactor simpson ms =
        Except.ok [max (discfactor * nansum (List.zipWith (fun c a => (c * Complex.exp a).re)
          (List.zipWith (fun w z => Complex.ofReal (w / Real.pi) / (z * z)) dp psi_grid)
          (List.zipWith (fun u v => u + v)
            (psi_grid.map (fun z => Complex.ofReal (K * ttm) * z)) log_mgf_grid)) / ttm)
          1e-10])
  ∧ (∀ strikes optiontypes r, strikes.length = optiontypes.length →
      MgfPricer.slice_qvar_pricer_with_a_grid log_mgf_grid psi_grid ttm strikes optiontypes
        forward discfactor simpson ms = Except.ok r → ∀ v ∈ r, (1e-10 : ℝ) ≤ v) := by
  constructor
  · obtain ⟨dp, hdp⟩ := compute_integration_weights_ok psi_grid simpson h2
    refine ⟨dp, hdp, ?_⟩
    have h := MgfPricer.slice_qvar_single log_mgf_grid psi_grid dp ttm K forward discfactor
      "C" simpson ms hdp hlen
    rw [h]
    norm_num
  · intro strikes optiontypes r hl hok
    unfold MgfPricer.slice_qvar_pricer_with_a_grid at hok
    obtain ⟨dp, hdp, hok⟩ := except_bind_ok hok
    obtain ⟨prices, hmap, hok⟩ := except_bind_ok hok
    have hr : r = prices ++ List.replicate (strikes.length - (strikes.zip optiontypes).length) 0 := by
      cases hok; rfl
    have hzl : (strikes.zip optiontypes).length = strikes.length := by
      rw [List.length_zip, hl, min_self]
    rw [hr, hzl, Nat.sub_self, List.replicate_zero, List.append_nil]
    refine mapExcept_ok_forall _ ?_ hmap
    intro a b hab
    obtain ⟨args, hargs, hab⟩ := except_bind_ok hab
    by_cases ht : a.2 = "C"
    · rw [if_pos ht] at hab
      cases hab
      exact le_max_right _ _
    · rw [if_neg ht] at hab
      cases hab

/-- Witness for the amended C4 at a concrete two-point contour. -/
theorem qvar_pricer_floor_witness :
    (∃ dp, MgfPricer.compute_integration_weights [⟨-0.5, 0⟩, ⟨-0.5, 1⟩] false = Except.ok dp ∧
      MgfPricer.slice_qvar_pricer_with_a_grid [0, 0] [⟨-0.5, 0⟩, ⟨-0.5, 1⟩] 1 [1] ["C"] 1
          1 false true =
        Except.ok [max (1 * nansum (List.zipWith (fun c a => (c * Complex.exp a).re)
          (List.zipWith (fun w z => Complex.ofReal (w / Real.pi) / (z * z)) dp
            [⟨-0.5, 0⟩, ⟨-0.5, 1⟩])
          (List.zipWith (fun u v => u + v)
            (List.map (fun z => Complex.ofReal (1 * 1) * z) [⟨-0.5, 0⟩, ⟨-0.5, 1⟩]) [0, 0]))
            / 1) 1e-10])
  ∧ (∀ strikes optiontypes r, strikes.length = optiontypes.length →
      MgfPricer.slice_qvar_pricer_with_a_grid [0, 0] [⟨-0.5, 0⟩, ⟨-0.5, 1⟩] 1 strikes
        optiontypes 1 1 false true = Except.ok r → ∀ v ∈ r, (1e-10 : ℝ) ≤ v) :=
  qvar_pricer_floor [0, 0] [⟨-0.5, 0⟩, ⟨-0.5, 1⟩] 1 1 1 1 false true (by norm_num) rfl

/-- Claim C5: Simpson weight construction.  For a contour with at least two
points the core `compute_integration_weights` returns the array obtained by
initializing every weight to 2, setting the first and last weights to 1, then
setting every odd-indexed weight to 4, and scaling by `(p[1]-p[0])/3` — in
that order, so the per-index closed form puts 4 (not 1) at every odd index
including the last one, and on an even-length grid the final weight is
`4*(p[1]-p[0])/3` because the odd-index pass overrides the endpoint pass. -/
theorem simpson_weight_construction (g : List ℂ) (h2 : 2 ≤ g.length) :
    ∃ ws, MgfPricer.compute_integration_weights g true = Except.ok ws ∧
      ws.length = g.length ∧
      (∀ i, i < g.length →
        ws.getD i 0 = ((g.map Complex.im).getD 1 0 - (g.map Complex.im).getD 0 0) / 3 *
          (if i % 2 = 1 then 4 else if i = 0 ∨ i = g.length - 1 then 1 else 2)) ∧
      (g.length % 2 = 0 →
        ws.getD (g.length - 1) 0 =
          4 * (((g.map Complex.im).getD 1 0 - (g.map Complex.im).getD 0 0) / 3)) := by
  refine ⟨_, cw_simpson_explicit g h2, by simp, ?_, ?_⟩
  · intro i hi
    rw [List.getD_eq_getElem _ _ (by simpa using hi)]
    simp only [List.getElem_map, List.getElem_range]
    by_cases hodd : i % 2 = 1 <;> by_cases h0 : i = 0 <;>
      by_cases hl : i = g.length - 1 <;> simp [hodd, h0, hl]
  · intro heven
    have h1 : (g.length - 1) % 2 = 1 := by omega
    rw [List.getD_eq_getElem _ _ (by simp; omega)]
    simp only [List.getElem_map, List.getElem_range]
    rw [if_pos h1]
    ring

/-- Witness for C5 on a four-point (even-length) contour with unit spacing:
the final Simpson weight is `4/3`, the odd-pass override. -/
theorem simpson_weight_construction_witness :
    ∃ ws, MgfPricer.compute_integration_weights [(⟨0, 0⟩ : ℂ), ⟨0, 1⟩, ⟨0, 2⟩, ⟨0, 3⟩] true =
        Except.ok ws ∧ ws.getD 3 0 = (4 : ℝ) / 3 := by
  obtain ⟨ws, hcw, hlen, hidx, hlast⟩ :=
    simpson_weight_construction [(⟨0, 0⟩ : ℂ), ⟨0, 1⟩, ⟨0, 2⟩, ⟨0, 3⟩] (by norm_num)
  refine ⟨ws, hcw, ?_⟩
  have h := hlast (by norm_num)
  norm_num at h
  rw [List.getD_eq_getElem?_getD]
  exact h

/-- Claim C6: quadrature weight sums.  For a uniform contour with imaginary
spacing `h` and `n ≥ 2` points, the Simpson weights sum to exactly `h*(n-1)`
for odd `n` and `h*(n-1) + 2h/3` for even `n`, and the trapezoidal weights sum
to exactly `h*(n-1) + h/2`; for `h ≥ 0` both sums are within one grid step `h`
of the contour length `h*(n-1)`, so both approximate it as claimed. -/
theorem quadrature_weight_sums (g : List ℂ) (n : ℕ) (a h : ℝ) (h2 : 2 ≤ n)
    (hg : g.map Complex.im = (List.range n).map (fun i : ℕ => a + h * i)) :
    ∃ ws wt, MgfPricer.compute_integration_weights g true = Except.ok ws ∧
      MgfPricer.compute_integration_weights g false = Except.ok wt ∧
      ws.sum = h * ((n : ℝ) - 1) + (if n % 2 = 0 then 2 * h / 3 else 0) ∧
      wt.sum = h * ((n : ℝ) - 1) + h / 2 ∧
      (0 ≤ h →
        |ws.sum - h * ((n : ℝ) - 1)| ≤ h ∧ |wt.sum - h * ((n : ℝ) - 1)| ≤ h) := by
  have hgl : g.length = n := by simpa using congrArg List.length hg
  have h2g : 2 ≤ g.length := by omega
  have hstep : (g.map Complex.im).getD 1 0 - (g.map Complex.im).getD 0 0 = h := by
    rw [hg, List.getD_eq_getElem _ _ (by simp; omega),
      List.getD_eq_getElem _ _ (by simp; omega)]
    simp only [List.getElem_map, List.getElem_range]
    push_cast
    ring
  have hsum1 : ∀ ws, MgfPricer.compute_integration_weights g true = Except.ok ws →
      ws.sum = h * ((n : ℝ) - 1) + (if n % 2 = 0 then 2 * h / 3 else 0) := by
    intro ws hcw
    rw [cw_simpson_explicit g h2g] at hcw
    injection hcw with hcw
    subst hcw
    simp only [hstep, hgl, sum_map_mul_left, sum_map_range]
    rw [simpson_coeff_sum n h2]
    rcases Nat.mod_two_eq_zero_or_one n with hn | hn <;> simp only [hn] <;> norm_num <;> ring
  have hsum2 : ∀ wt, MgfPricer.compute_integration_weights g false = Except.ok wt →
      wt.sum = h * ((n : ℝ) - 1) + h / 2 := by
    intro wt hcw
    rw [cw_trap_explicit g h2g] at hcw
    injection hcw with hcw
    subst hcw
    have hdiffs : List.zipWith (fun x y => x - y) (g.map Complex.im).tail
        (g.map Complex.im) = List.replicate (n - 1) h := by
      rw [hg]
      apply List.ext_getElem
      · simp
      · intro i hi1 hi2
        simp only [List.getElem_replicate]
        rw [List.getElem_zipWith]
        rw [List.getElem_tail]
        simp only [List.getElem_map, List.getElem_range]
        push_cast
        ring
    rw [List.sum_cons, hdiffs, hstep, List.sum_replicate, nsmul_eq_mul]
    rw [Nat.cast_sub (by omega : 1 ≤ n)]
    push_cast
    ring
  refine ⟨_, _, cw_simpson_explicit g h2g, cw_trap_explicit g h2g,
    hsum1 _ (cw_simpson_explicit g h2g), hsum2 _ (cw_trap_explicit g h2g), ?_⟩
  intro hh
  constructor
  · rw [hsum1 _ (cw_simpson_explicit g h2g)]
    rcases Nat.mod_two_eq_zero_or_one n with hn | hn
    · rw [if_pos hn]
      have he : h * ((n : ℝ) - 1) + 2 * h / 3 - h * ((n : ℝ) - 1) = 2 * h / 3 := by ring
      rw [he, abs_of_nonneg (by linarith)]
      linarith
    · rw [if_neg (by omega)]
      have he : h * ((n : ℝ) - 1) + 0 - h * ((n : ℝ) - 1) = 0 := by ring
      rw [he]
      simpa using hh
  · rw [hsum2 _ (cw_trap_explicit g h2g)]
    have he : h * ((n : ℝ) - 1) + h / 2 - h * ((n : ℝ) - 1) = h / 2 := by ring
    rw [he, abs_of_nonneg (by linarith)]
    linarith

/-- Witness for C6 on the three-point unit-spacing contour `[0, i, 2i]`:
Simpson weights sum to exactly 2 and trapezoidal weights to 2.5. -/
theorem quadrature_weight_sums_witness :
    ∃ ws wt, MgfPricer.compute_integration_weights [(⟨0, 0⟩ : ℂ), ⟨0, 1⟩, ⟨0, 2⟩] true =
        Except.ok ws ∧
      MgfPricer.compute_integration_weights [(⟨0, 0⟩ : ℂ), ⟨0, 1⟩, ⟨0, 2⟩] false =
        Except.ok wt ∧
      ws.sum = 2 ∧ wt.sum = (5 : ℝ) / 2 := by
  obtain ⟨ws, wt, hws, hwt, hs1, hs2, _⟩ :=
    quadrature_weight_sums [(⟨0, 0⟩ : ℂ), ⟨0, 1⟩, ⟨0, 2⟩] 3 0 1 (by norm_num)
      (by norm_num [List.range_succ])
  refine ⟨ws, wt, hws, hwt, ?_, ?_⟩
  · rw [hs1]; norm_num
  · rw [hs2]; norm_num

/-- Claim C7: grid builder structure.  For every measure flag and scale the
core `get_transform_var_grid` returns three complex contours: under
LOG_RETURN the phi contour is active (imaginary parts
`linspace(0, 5.6/scale, 1000)`, real part -0.5 under the spot measure and
+0.5 otherwise) and psi/theta are all-zero placeholders of length 1000; under
Q_VAR the psi contour is active and the degenerate phi contour is all-zero
(spot) or all-one (inverse); under SIGMA the theta contour is active and
phi/psi are all-zero; in every case the three contours have equal length. -/
theorem transform_var_grid_structure (spot : Bool) (scaler : ℝ) :
    ((MgfPricer.get_transform_var_grid .LOG_RETURN spot scaler).1.length = 1000 ∧
      (MgfPricer.get_transform_var_grid .LOG_RETURN spot scaler).2.1 =
        List.replicate 1000 (0 : ℂ) ∧
      (MgfPricer.get_transform_var_grid .LOG_RETURN spot scaler).2.2 =
        List.replicate 1000 (0 : ℂ) ∧
      (MgfPricer.get_transform_var_grid .LOG_RETURN spot scaler).1.map Complex.im =
        linspace 0 (5.6 / scaler) 1000 ∧
      (MgfPricer.get_transform_var_grid .LOG_RETURN spot scaler).1.map Complex.re =
        List.replicate 1000 (if spot then (-0.5 : ℝ) else 0.5))
  ∧ ((MgfPricer.get_transform_var_grid .Q_VAR spot scaler).2.1.length = 4000 ∧
      (MgfPricer.get_transform_var_grid .Q_VAR spot scaler).1 =
        (if spot then List.replicate 4000 (0 : ℂ) else List.replicate 4000 1) ∧
      (MgfPricer.get_transform_var_grid .Q_VAR spot scaler).2.2 =
        List.replicate 4000 (0 : ℂ) ∧
      (MgfPricer.get_transform_var_grid .Q_VAR spot scaler).2.1.map Complex.im =
        linspace 0 200 4000 ∧
      (MgfPricer.get_transform_var_grid .Q_VAR spot scaler).2.1.map Complex.re =
        List.replicate 4000 (-0.5 : ℝ))
  ∧ ((MgfPricer.get_transform_var_grid .SIGMA spot scaler).2.2.length = 4000 ∧
      (MgfPricer.get_transform_var_grid .SIGMA spot scaler).1 =
        List.replicate 4000 (0 : ℂ) ∧
      (MgfPricer.get_transform_var_grid .SIGMA spot scaler).2.1 =
        List.replicate 4000 (0 : ℂ) ∧
      (MgfPricer.get_transform_var_grid .SIGMA spot scaler).2.2.map Complex.im =
        linspace 0 600 4000 ∧
      (MgfPricer.get_transform_var_grid .SIGMA spot scaler).2.2.map Complex.re =
        List.replicate 4000 (-0.5 : ℝ))
  ∧ (∀ vt : MgfPricer.VariableType,
      (MgfPricer.get_transform_var_grid vt spot scaler).1.length =
        (MgfPricer.get_transform_var_grid vt spot scaler).2.1.length ∧
      (MgfPricer.get_transform_var_grid vt spot scaler).2.1.length =
        (MgfPricer.get_transform_var_grid vt spot scaler).2.2.length) := by
  have hphilen : (MgfPricer.get_phi_grid spot scaler).length = 1000 := by
    rw [get_phi_grid_eq, List.length_map, linspace_length]
  have hpsilen : MgfPricer.get_psi_grid.length = 4000 := by
    unfold MgfPricer.get_psi_grid
    rw [List.length_map, linspace_length]
  have hthlen : MgfPricer.get_theta_grid.length = 4000 := by
    unfold MgfPricer.get_theta_grid
    rw [List.length_map, linspace_length]
  have hL1 : (MgfPricer.get_transform_var_grid .LOG_RETURN spot scaler).1 =
      MgfPricer.get_phi_grid spot scaler := by
    simp only [MgfPricer.get_transform_var_grid]
  have hL2 : (MgfPricer.get_transform_var_grid .LOG_RETURN spot scaler).2.1 =
      List.replicate 1000 (0 : ℂ) := by
    simp only [MgfPricer.get_transform_var_grid]
    rw [hphilen]
  have hL3 : (MgfPricer.get_transform_var_grid .LOG_RETURN spot scaler).2.2 =
      List.replicate 1000 (0 : ℂ) := by
    simp only [MgfPricer.get_transform_var_grid]
    rw [hphilen]
  have hQ1 : (MgfPricer.get_transform_var_grid .Q_VAR spot scaler).1 =
      (if spot then List.replicate 4000 (0 : ℂ) else List.replicate 4000 1) := by
    simp only [MgfPricer.get_transform_var_grid]
    rw [hpsilen]
  have hQ2 : (MgfPricer.get_transform_var_grid .Q_VAR spot scaler).2.1 =
      MgfPricer.get_psi_grid := by
    simp only [MgfPricer.get_transform_var_grid]
  have hQ3 : (MgfPricer.get_transform_var_grid .Q_VAR spot scaler).2.2 =
      List.replicate 4000 (0 : ℂ) := by
    simp only [MgfPricer.get_transform_var_grid]
    cases spot
    · rw [if_neg (by simp : ¬ (false = true)), List.length_replicate, hpsilen]
    · rw [if_pos rfl, List.length_replicate, hpsilen]
  have hS1 : (MgfPricer.get_transform_var_grid .SIGMA spot scaler).1 =
      List.replicate 4000 (0 : ℂ) := by
    simp only [MgfPricer.get_transform_var_grid]
    rw [hthlen]
  have hS2 : (MgfPricer.get_transform_var_grid .SIGMA spot scaler).2.1 =
      List.replicate 4000 (0 : ℂ) := by
    simp only [MgfPricer.get_transform_var_grid]
    rw [hthlen]
  have hS3 : (MgfPricer.get_transform_var_grid .SIGMA spot scaler).2.2 =
      MgfPricer.get_theta_grid := by
    simp only [MgfPricer.get_transform_var_grid]
  refine ⟨⟨?_, ?_, ?_, ?_, ?_⟩, ⟨?_, ?_, ?_, ?_, ?_⟩, ⟨?_, ?_, ?_, ?_, ?_⟩, ?_⟩
  · rw [hL1, hphilen]
  · exact hL2
  · exact hL3
  · rw [hL1, get_phi_grid_eq, map_mk_im]
  · rw [hL1, get_phi_grid_eq, map_mk_re, linspace_length]
  · rw [hQ2, hpsilen]
  · exact hQ1
  · exact hQ3
  · rw [hQ2]
    unfold MgfPricer.get_psi_grid
    rw [map_mk_im]
  · rw [hQ2]
    unfold MgfPricer.get_psi_grid
    rw [map_mk_re, linspace_length]
  · rw [hS3, hthlen]
  · exact hS1
  · exact hS2
  · rw [hS3]
    unfold MgfPricer.get_theta_grid
    rw [map_mk_im]
  · rw [hS3]
    unfold MgfPricer.get_theta_grid
    rw [map_mk_re, linspace_length]
  · intro vt
    cases vt
    · rw [hL1, hL2, hL3, hphilen, List.length_replicate]
      exact ⟨rfl, rfl⟩
    · rw [hQ1, hQ2, hQ3, hpsilen]
      cases spot
      · rw [if_neg (by simp : ¬ (false = true))]
        refine ⟨?_, ?_⟩
        · rw [List.length_replicate]
        · rw [List.length_replicate]
      · rw [if_pos rfl]
        refine ⟨?_, ?_⟩
        · rw [List.length_replicate]
        · rw [List.length_replicate]
    · rw [hS1, hS2, hS3, hthlen, List.length_replicate]
      exact ⟨rfl, rfl⟩

/-- Counterexample to claim C9 as stated: a log-MGF grid of length 1 against a
2-point contour is a length mismatch, yet `pdf_with_mgf_grid` does not fail —
numpy broadcasting silently stretches the length-1 operand and densities are
computed and returned. -/
theorem malformed_grid_cx :
    ([(0 : ℂ)].length ≠ [(⟨0, 0⟩ : ℂ), ⟨0, 0⟩].length) ∧
    MgfPricer.pdf_with_mgf_grid [0] [⟨0, 0⟩, ⟨0, 0⟩] [0, 1] 0 false =
      Except.ok [0, 0] := by
  refine ⟨by norm_num, ?_⟩
  have hdp : MgfPricer.compute_integration_weights [⟨0, 0⟩, ⟨0, 0⟩] false =
      Except.ok [0, 0] := by
    norm_num [MgfPricer.compute_integration_weights]
  unfold MgfPricer.pdf_with_mgf_grid
  rw [hdp]
  norm_num [mapExcept, broadcastZip, nansum]

/-- Claim C9 (amended): a contour with fewer than 2 points makes
`compute_integration_weights` (and hence `pdf_with_mgf_grid`) fail with the
out-of-range `IndexError` that the spec taxonomy calls `MalformedGrid`; a
spatial grid with fewer than 2 points makes `pdf_with_mgf_grid` fail with the
same `IndexError` (raised at `space_grid[1]` after the density loop); a
log-MGF grid whose length differs from the contour's fails with the numpy
broadcast error — except a length-1 log-MGF grid, which numpy broadcasting
accepts silently, so densities are computed and returned (see the
counterexample).  All failures are total: no partial result is returned. -/
theorem malformed_grid_errors (g mgf : List ℂ) (space : List ℝ)
    (shift : ℝ) (simpson : Bool) :
    (g.length < 2 → MgfPricer.compute_integration_weights g simpson =
        Except.error PyErr.indexError)
  ∧ (g.length < 2 → MgfPricer.pdf_with_mgf_grid mgf g space shift simpson =
        Except.error PyErr.indexError)
  ∧ (2 ≤ g.length → mgf.length ≠ g.length → mgf.length ≠ 1 → space ≠ [] →
      MgfPricer.pdf_with_mgf_grid mgf g space shift simpson =
        Except.error PyErr.broadcastError)
  ∧ (2 ≤ g.length → mgf.length = 1 →
      ∃ r, MgfPricer.pdf_with_mgf_grid mgf g space shift simpson =
        (if space.length < 2 then Except.error PyErr.indexError else Except.ok r))
  ∧ (2 ≤ g.length → mgf.length = g.length → space.length < 2 →
      MgfPricer.pdf_with_mgf_grid mgf g space shift simpson =
        Except.error PyErr.indexError) := by
  have herr : g.length < 2 → MgfPricer.compute_integration_weights g simpson =
      Except.error PyErr.indexError := by
    intro hlt
    unfold MgfPricer.compute_integration_weights
    simp only [List.length_map]
    rw [if_pos hlt]
  refine ⟨herr, ?_, ?_, ?_, ?_⟩
  · intro hlt
    unfold MgfPricer.pdf_with_mgf_grid
    rw [herr hlt]
    rfl
  · intro hge hne h1 hsp
    obtain ⟨dp, hdp⟩ := compute_integration_weights_ok g simpson hge
    unfold MgfPricer.pdf_with_mgf_grid
    rw [hdp]
    cases space with
    | nil => exact absurd rfl hsp
    | cons x xs =>
      have hbz : broadcastZip (fun u v => u + v)
          (g.map (fun z => Complex.ofReal (x - shift) * z)) mgf =
          Except.error PyErr.broadcastError := by
        unfold broadcastZip
        rw [if_neg (by simp [Ne.symm hne]), if_neg h1,
          if_neg (by simp; omega)]
      simp only [mapExcept, hbz]
      rfl
  · intro hge h1
    obtain ⟨dp, hdp⟩ := compute_integration_weights_ok g simpson hge
    unfold MgfPricer.pdf_with_mgf_grid
    rw [hdp]
    simp only [exceptOk_bind]
    have hbz : ∀ x : ℝ, broadcastZip (fun u v => u + v)
        (g.map (fun z => Complex.ofReal (x - shift) * z)) mgf =
        Except.ok ((g.map (fun z => Complex.ofReal (x - shift) * z)).map
          (fun u => u + mgf.headD 0)) := by
      intro x
      unfold broadcastZip
      rw [if_neg (by simp [h1]; omega), if_pos h1]
    rw [mapExcept_ok_of_ok
      (fun x : ℝ => do
        let args ← broadcastZip (fun u v => u + v)
          (g.map (fun z => Complex.ofReal (x - shift) * z)) mgf
        Except.ok (nansum (List.zipWith (fun w a => (Complex.ofReal w * Complex.exp a).re)
          (dp.map (fun w => w / Real.pi)) args)))
      (fun x => nansum (List.zipWith (fun w a => (Complex.ofReal w * Complex.exp a).re)
        (dp.map (fun w => w / Real.pi))
        ((g.map (fun z => Complex.ofReal (x - shift) * z)).map (fun u => u + mgf.headD 0))))
      (fun x => by simp only [hbz x, exceptOk_bind]) space]
    simp only [exceptOk_bind]
    by_cases hsl : space.length < 2
    · exact ⟨[], by rw [if_pos hsl]; rw [if_pos hsl]⟩
    · exact ⟨_, by rw [if_neg hsl]⟩
  · intro hge hml hsl
    obtain ⟨dp, hdp⟩ := compute_integration_weights_ok g simpson hge
    unfold MgfPricer.pdf_with_mgf_grid
    rw [hdp]
    simp only [exceptOk_bind]
    have hbz : ∀ x : ℝ, broadcastZip (fun u v => u + v)
        (g.map (fun z => Complex.ofReal (x - shift) * z)) mgf =
        Except.ok (List.zipWith (fun u v => u + v)
          (g.map (fun z => Complex.ofReal (x - shift) * z)) mgf) := by
      intro x
      exact broadcastZip_ok _ _ _ (by simp [hml])
    rw [mapExcept_ok_of_ok
      (fun x : ℝ => do
        let args ← broadcastZip (fun u v => u + v)
          (g.map (fun z => Complex.ofReal (x - shift) * z)) mgf
        Except.ok (nansum (List.zipWith (fun w a => (Complex.ofReal w * Complex.exp a).re)
          (dp.map (fun w => w / Real.pi)) args)))
      (fun x => nansum (List.zipWith (fun w a => (Complex.ofReal w * Complex.exp a).re)
        (dp.map (fun w => w / Real.pi))
        (List.zipWith (fun u v => u + v)
          (g.map (fun z => Complex.ofReal (x - shift) * z)) mgf)))
      (fun x => by simp only [hbz x, exceptOk_bind]) space]
    simp only [exceptOk_bind]
    rw [if_pos hsl]

/-- Witness for the amended C9: a one-point contour is rejected with the
index error, and an aligned grid with a one-point spatial grid fails only at
the spacing computation. -/
theorem malformed_grid_errors_witness :
    MgfPricer.compute_integration_weights [(0 : ℂ)] true = Except.error PyErr.indexError ∧
    MgfPricer.pdf_with_mgf_grid [0, 0] [⟨0, 0⟩, ⟨0, 0⟩] [0] 0 true =
      Except.error PyErr.indexError := by
  constructor
  · exact (malformed_grid_errors [(0 : ℂ)] [] [] 0 true).1 (by norm_num)
  · exact (malformed_grid_errors [⟨0, 0⟩, ⟨0, 0⟩] [0, 0] [0] 0 true).2.2.2.2
      (by norm_num) rfl (by norm_num)

/-- Claim C10: the two module copies implement identical quadrature and
density evaluation: `compute_integration_weights` and `pdf_with_mgf_grid` of
`src/utils/mgf_pricer.py` agree with those of
`src/stochvolmodels/pricers/core/mgf_pricer.py` on every input (the two
bodies are character-for-character identical). -/
theorem duplicate_modules_agree :
    (∀ (g : List ℂ) (simpson : Bool),
      UtilsMgfPricer.compute_integration_weights g simpson =
        MgfPricer.compute_integration_weights g simpson)
  ∧ (∀ (mgf g : List ℂ) (space : List ℝ) (shift : ℝ) (simpson : Bool),
      UtilsMgfPricer.pdf_with_mgf_grid mgf g space shift simpson =
        MgfPricer.pdf_with_mgf_grid mgf g space shift simpson) :=
  ⟨fun _ _ => rfl, fun _ _ _ _ _ => rfl⟩

/-- Witness for the amended C8: strike `-2`, forward `1`. -/
theorem invalid_strike_no_error_witness :
    MgfPricer.slice_pricer_with_mgf_grid [0, 0] [⟨-0.5, 0⟩, ⟨-0.5, 1⟩] 1 1
        [-2] ["C"] 1 true false = Except.ok [1 * 1] ∧
    MgfPricer.slice_pricer_with_mgf_grid [0, 0] [⟨-0.5, 0⟩, ⟨-0.5, 1⟩] 1 1
        [-2] ["P"] 1 true false = Except.ok [1 * -2] :=
  invalid_strike_no_error [0, 0] [⟨-0.5, 0⟩, ⟨-0.5, 1⟩] 1 1 (-2) 1 false
    (by norm_num) rfl (by norm_num) (by norm_num)

end
